import Mathlib

/-!
Shallow embedding of `src/minitorch/autodiff.py`: the reverse-mode
autodiff core (Variable, Context, History, FunctionBase.apply,
FunctionBase.chain_rule, backpropagate).

Payloads are modelled as integers (the engine itself performs no numeric
math beyond derivative addition, and the concrete scenarios use exactly
representable values).  Python's mutable object heap is modelled as a
`Store : Nat -> VarData` indexed by `unique_id`; mutation is functional
update.  Python exceptions (AssertionError, AttributeError, KeyError,
IndexError, TypeError) are modelled with `Except AdError`.  The while
loop of `backpropagate` is given explicit fuel; exhausted fuel is its own
error, distinct from every Python failure mode.
-/

deriving instance DecidableEq for Except

namespace Autodiff

/-- Failure modes of the embedded Python code. -/
inductive AdError where
  | gradOnFrozenContext
  | unsavedContext
  | attributeError
  | keyError
  | indexError
  | typeError
  | outOfFuel
  deriving DecidableEq, Repr

/-- Embeds `Context.__init__`: `_saved_values = None`, `no_grad` flag. -/
structure Context where
  _saved_values : Option (List ℤ)
  no_grad : Bool
  deriving DecidableEq, Repr

/-- Result of Python's `unwrap_tuple`: either the lone value of a
singleton tuple or the tuple itself. -/
inductive TupOrVal where
  | val (v : ℤ)
  | tup (vs : List ℤ)
  deriving DecidableEq, Repr

/-- Embeds `unwrap_tuple`: `if len(x) == 1: return x[0]` else `return x`. -/
def unwrap_tuple (x : List ℤ) : TupOrVal :=
  match x with
  | [v] => TupOrVal.val v
  | _ => TupOrVal.tup x

/-- Embeds `Context.save_for_backward`: no-op when `no_grad`, otherwise
replaces `_saved_values` with the given values. -/
def save_for_backward (ctx : Context) (values : List ℤ) : Context :=
  if ctx.no_grad then ctx
  else { ctx with _saved_values := some values }

/-- Embeds the `Context.saved_values` property: asserts `not no_grad`
first, then asserts something was saved, then unwraps. -/
def saved_values (ctx : Context) : Except AdError TupOrVal :=
  if ctx.no_grad then Except.error AdError.gradOnFrozenContext
  else
    match ctx._saved_values with
    | none => Except.error AdError.unsavedContext
    | some vs => Except.ok (unwrap_tuple vs)

/-- What a concrete operation's `backward` may return in Python: a bare
scalar (not iterable) or an iterable sequence; `chain_rule` branches on
`hasattr(backward_val, '__iter__')`. -/
inductive BackwardResult where
  | scalar (v : ℤ)
  | seq (vs : List ℤ)
  deriving DecidableEq, Repr

/-- Embeds the per-operation contract (a `FunctionBase` subclass).
`forward` is, per the external-interface contract of the spec, a pure
function of the raw payloads that may call `ctx.save_for_backward`; it is
modelled as returning the ordered list of save calls it makes together
with its result value.  `backward` receives the context and the upstream
derivative and may fail (e.g. by reading unsaved values). -/
structure Op where
  forward : List ℤ → List (List ℤ) × ℤ
  backward : Context → ℤ → Except AdError BackwardResult

/-- An operand passed to `apply`: a `Variable` (referenced by its
`unique_id`) or a raw constant. -/
inductive Input where
  | var (id : Nat)
  | const (v : ℤ)
  deriving Repr

/-- Embeds `History.__init__(last_fn=None, ctx=None, inputs=None)`. -/
structure History where
  last_fn : Option Op
  ctx : Option Context
  inputs : Option (List Input)

/-- The mutable state of one `Variable` object: its payload (held by the
concrete subclass, per the spec's `variable(raw, history)` factory), its
optional `History`, its derivative accumulator, debug name and use
counter. -/
structure VarData where
  value : ℤ
  history : Option History
  derivative : Option ℤ
  name : String
  used : Nat

/-- The Python object heap: `unique_id` to `Variable` state. -/
def Store : Type := Nat → VarData

/-- Embeds `Variable.expand`: the identity placeholder of the base class. -/
def Variable.expand (x : ℤ) : ℤ := x

/-- Embeds `Variable.zeros`: the payload zero `0.0`. -/
def Variable.zeros : ℤ := 0

/-- Embeds `Variable.is_leaf`: `return self.history.last_fn is None`.
When `history` is `None` the attribute access `None.last_fn` raises
`AttributeError`. -/
def is_leaf (store : Store) (id : Nat) : Except AdError Bool :=
  match (store id).history with
  | none => Except.error AdError.attributeError
  | some h => Except.ok (Option.isNone h.last_fn)

/-- Embeds `Variable.accumulate_derivative`: initialize the accumulator
to `zeros()` when absent, then add `val` in place. -/
def accumulate_derivative (store : Store) (id : Nat) (val : ℤ) : Store :=
  fun n =>
    if n = id then
      let v := store n
      { v with derivative := some ((Option.getD v.derivative Variable.zeros) + val) }
    else store n

set_option linter.unusedVariables false in
/-- Embeds `Variable.requires_grad_(val)`: the argument is unused; the
history is unconditionally replaced by a fresh empty `History()`. -/
def requires_grad_ (store : Store) (id : Nat) (val : Bool) : Store :=
  fun n =>
    if n = id then { store n with history := some (History.mk none none none) }
    else store n

/-- Embeds `Variable.__init__` plus allocation of the global
`variable_count`: increments the counter and stores a fresh object with
no derivative and `used = 0` under the new id. -/
def mkVariable (store : Store) (count : Nat) (value : ℤ) (history : Option History) : Store × Nat :=
  let newId := count + 1
  (fun n =>
    if n = newId then
      VarData.mk value history none ("Variable" ++ Nat.repr newId) 0
    else store n,
   newId)

/-- Embeds `is_constant`: not a `Variable`, or `history is None`. -/
def is_constant (store : Store) : Input → Bool
  | Input.const _ => true
  | Input.var id => Option.isNone (store id).history

/-- A store with no allocated variables (reads of unallocated ids give a
blank constant object, like an unbound Python name never does; all runs
below only read allocated ids or use blanks as never-tracked nodes). -/
def emptyStore : Store := fun _ => VarData.mk 0 none none "" 0

/-- Embeds the normalization step of `chain_rule`:
`if not hasattr(backward_val, '__iter__'): backward_val = [backward_val]`. -/
def wrap_backward : BackwardResult → List ℤ
  | BackwardResult.scalar v => [v]
  | BackwardResult.seq vs => vs

/-- Embeds the loop body of `chain_rule`:
`for i in range(len(inputs)): if not is_constant(inputs[i]):
result.append((inputs[i], inputs[i].expand(backward_val[i])))`.
An out-of-range access `backward_val[i]` raises `IndexError` and
discards the partial result. -/
def chain_rule_go (store : Store) (bv : List ℤ) : List Input → Nat → Except AdError (List (Nat × ℤ))
  | [], _ => Except.ok []
  | inp :: rest, i =>
    if is_constant store inp then chain_rule_go store bv rest (i + 1)
    else
      match inp with
      | Input.const _ => chain_rule_go store bv rest (i + 1)
      | Input.var id =>
        match bv[i]? with
        | none => Except.error AdError.indexError
        | some d =>
          Except.map (fun ps => (id, Variable.expand d) :: ps)
            (chain_rule_go store bv rest (i + 1))

/-- Embeds `FunctionBase.chain_rule`: run the operation's `backward`,
normalize its result, then filter-and-pair over the input positions. -/
def chain_rule (op : Op) (store : Store) (ctx : Context) (inputs : List Input) (d_output : ℤ) :
    Except AdError (List (Nat × ℤ)) :=
  match op.backward ctx d_output with
  | Except.error e => Except.error e
  | Except.ok bv => chain_rule_go store (wrap_backward bv) inputs 0

/-- Embeds the `need_grad` computation of `FunctionBase.apply`: true iff
some operand is a `Variable` with `history is not None`. -/
def apply_need_grad (store : Store) (vals : List Input) : Bool :=
  vals.any (fun v =>
    match v with
    | Input.var id => Option.isSome (store id).history
    | Input.const _ => false)

/-- Modelled from the spec: `get_data` lives in the concrete subclass
missing from src; per the external-interface contract it extracts the raw
payload wrapped by the node. -/
def get_data (store : Store) (id : Nat) : ℤ := (store id).value

/-- Embeds the `raw_vals` extraction of `apply`: a node's payload via
`get_data`, or the raw constant itself. -/
def apply_raw_vals (store : Store) (vals : List Input) : List ℤ :=
  vals.map (fun v =>
    match v with
    | Input.var id => get_data store id
    | Input.const c => c)

/-- Replays the `save_for_backward` calls a `forward` run makes onto the
context `apply` constructed for it. -/
def run_forward (ctx : Context) (saves : List (List ℤ)) : Context :=
  saves.foldl save_for_backward ctx

/-- The context produced by one `apply` invocation: built with
`no_grad = not need_grad`, then mutated by `forward`'s saves. -/
def apply_context (op : Op) (store : Store) (vals : List Input) : Context :=
  run_forward (Context.mk none (!apply_need_grad store vals)) (op.forward (apply_raw_vals store vals)).1

/-- Increments `v.used` for one operand node. -/
def incUsed (store : Store) (id : Nat) : Store :=
  fun n => if n = id then { store n with used := (store n).used + 1 } else store n

/-- Embeds `FunctionBase.apply`: computes `need_grad`, increments each
node operand's `used`, extracts raw payloads, builds the context, runs
`forward`, and wraps the result in a fresh node whose history is
`History(cls, ctx, vals)` when `need_grad` else `None`.  The declared
payload type is ℤ throughout, so the `isinstance(c, cls.data_type)`
assertion always passes and `cls.data` is the identity (both modelled
from the spec's external-interface table, the subclasses being outside
src).  Returns the updated heap and the new node's id (also the new value
of the global counter). -/
def apply (op : Op) (store : Store) (count : Nat) (vals : List Input) : Store × Nat :=
  let need_grad := apply_need_grad store vals
  let store1 := vals.foldl (fun s v =>
    match v with
    | Input.var id => incUsed s id
    | Input.const _ => s) store
  let ctx2 := apply_context op store vals
  let c := (op.forward (apply_raw_vals store vals)).2
  let back : Option History :=
    if need_grad then some (History.mk (some op) (some ctx2) (some vals)) else none
  let newId := count + 1
  (fun n =>
    if n = newId then VarData.mk c back none ("Variable" ++ Nat.repr newId) 0
    else store1 n,
   newId)

/-- Embeds the while loop of `backpropagate`: pop the queue head; a leaf
accumulates its pending derivative; a non-leaf runs `chain_rule` with its
pending derivative and then, pair by pair, ASSIGNS the contribution into
`dict_deriv` (overwriting any existing entry) and appends the operand to
the queue.  `dict_deriv[...]` on a missing key raises `KeyError`; the
`is_leaf` call on a history-less node raises `AttributeError`; the loop
is fuelled. -/
def backprop_loop (store : Store) (queue : List Nat) (dd : Nat → Option ℤ) :
    Nat → Except AdError Store
  | 0 => Except.error AdError.outOfFuel
  | fuel + 1 =>
    match queue with
    | [] => Except.ok store
    | id :: rest =>
      match (store id).history with
      | none => Except.error AdError.attributeError
      | some h =>
        match dd id with
        | none => Except.error AdError.keyError
        | some d =>
          match h.last_fn with
          | none => backprop_loop (accumulate_derivative store id d) rest dd fuel
          | some op =>
            match h.ctx, h.inputs with
            | some ctx, some inputs =>
              match chain_rule op store ctx inputs d with
              | Except.error e => Except.error e
              | Except.ok pairs =>
                backprop_loop store (rest ++ List.map Prod.fst pairs)
                  (pairs.foldl (fun m p => fun n => if n = p.1 then some p.2 else m n) dd)
                  fuel
            | _, _ => Except.error AdError.typeError

/-- Embeds `backpropagate(variable, deriv)`: queue seeded with the root,
`dict_deriv` seeded with `{root.unique_id: deriv}`. -/
def backpropagate (store : Store) (rootId : Nat) (deriv : ℤ) (fuel : Nat) :
    Except AdError Store :=
  backprop_loop store [rootId] (fun n => if n = rootId then some deriv else none) fuel

/-- Embeds `Variable.backward(d_output=None)`: seed defaults to `1.0`. -/
def Variable.backward (store : Store) (id : Nat) (d_output : Option ℤ) (fuel : Nat) :
    Except AdError Store :=
  backpropagate store id (Option.getD d_output 1) fuel

/-! Concrete operations and graphs used by the scenario claims. -/

/-- Modelled from the spec's concrete scenario: operation `square` with
`forward(ctx, a) = a*a` saving `a`, and `backward(ctx, d) = (2*a*d,)` (a
one-element tuple, hence iterable). -/
def square : Op where
  forward := fun raws =>
    match raws with
    | [a] => ([[a]], a * a)
    | _ => ([], 0)
  backward := fun ctx d =>
    match saved_values ctx with
    | Except.error e => Except.error e
    | Except.ok (TupOrVal.val a) => Except.ok (BackwardResult.seq [2 * a * d])
    | Except.ok (TupOrVal.tup _) => Except.error AdError.typeError

/-- Heap after creating the grad-tracked leaf `a = 2.0` of the square
scenario (a user-made `Variable` with the empty `History()` that
`requires_grad_` installs); the global counter starts at 1, so `a` gets
id 2. -/
def sq_store0 : Store × Nat :=
  mkVariable emptyStore 1 2 (some (History.mk none none none))

/-- The id of the leaf `a`. -/
def sq_aId : Nat := 2

/-- Heap and id after `b = square(a)`. -/
def sq_applied : Store × Nat := apply square sq_store0.1 sq_store0.2 [Input.var sq_aId]

/-- The id of `b`. -/
def sq_bId : Nat := sq_applied.2

/-- First `backward(b)` run with seed `1.0`. -/
def sq_run1 : Except AdError Store := Variable.backward sq_applied.1 sq_bId (some 1) 20

/-- Second `backward(b)` run with seed `1.0`, on the heap the first one
left behind. -/
def sq_run2 : Except AdError Store :=
  match sq_run1 with
  | Except.error e => Except.error e
  | Except.ok s => Variable.backward s sq_bId (some 1) 20

/-- Modelled from the spec's diamond scenario: a unary `f` with local
derivative 1 (`forward(ctx, a) = a`, `backward(ctx, d) = (d,)`). -/
def diamond_f : Op where
  forward := fun raws =>
    match raws with
    | [a] => ([], a)
    | _ => ([], 0)
  backward := fun _ d => Except.ok (BackwardResult.seq [d])

/-- Modelled from the spec's diamond scenario: a unary `g` with local
derivative 2 (`forward(ctx, a) = a + a`, `backward(ctx, d) = (2*d,)`). -/
def diamond_g : Op where
  forward := fun raws =>
    match raws with
    | [a] => ([], a + a)
    | _ => ([], 0)
  backward := fun _ d => Except.ok (BackwardResult.seq [2 * d])

/-- Modelled from the spec's diamond scenario: the binary join
`h(y, z) = y + z` with `backward(ctx, d) = (d, d)`. -/
def diamond_h : Op where
  forward := fun raws =>
    match raws with
    | [a, b] => ([], a + b)
    | _ => ([], 0)
  backward := fun _ d => Except.ok (BackwardResult.seq [d, d])

/-- Diamond graph: grad-tracked leaf `x` (id 2), `y = f(x)` (id 3),
`z = g(x)` (id 4), `w = h(y, z)` (id 5). -/
def dia_store0 : Store × Nat :=
  mkVariable emptyStore 1 5 (some (History.mk none none none))

/-- Heap and id after `y = f(x)`. -/
def dia_storeY : Store × Nat := apply diamond_f dia_store0.1 dia_store0.2 [Input.var 2]

/-- Heap and id after `z = g(x)`. -/
def dia_storeZ : Store × Nat := apply diamond_g dia_storeY.1 dia_storeY.2 [Input.var 2]

/-- Heap and id after `w = h(y, z)`. -/
def dia_storeW : Store × Nat :=
  apply diamond_h dia_storeZ.1 dia_storeZ.2 [Input.var 3, Input.var 4]

/-- `backward(w)` on the diamond (default seed `1.0`). -/
def dia_run : Except AdError Store := Variable.backward dia_storeW.1 5 none 20

/-- Modelled from the spec (section 4.5 step 3), for comparison with the
source's `chain_rule`: walk `inputs` and the normalized gradient sequence
in lockstep; drop a constant position, otherwise emit the pair of the
input and `input.expand(local_derivative)`, the order mirroring `inputs`. -/
def chain_rule_spec (store : Store) : List Input → List ℤ → List (Nat × ℤ)
  | [], _ => []
  | _ :: _, [] => []
  | inp :: rest, g :: gs =>
    if is_constant store inp then chain_rule_spec store rest gs
    else
      match inp with
      | Input.var id => (id, Variable.expand g) :: chain_rule_spec store rest gs
      | Input.const _ => chain_rule_spec store rest gs

/-- A probe operation whose backward returns two gradients regardless of
how many operands were recorded. -/
def twoGradOp : Op where
  forward := fun _ => ([], 0)
  backward := fun _ d => Except.ok (BackwardResult.seq [d, d])

/-- A probe operation whose backward returns an empty gradient sequence. -/
def noGradOp : Op where
  forward := fun _ => ([], 0)
  backward := fun _ _ => Except.ok (BackwardResult.seq [])

/-! Theorems. -/

/-- C9: for every Variable whose history is None (such as the node
returned by apply when no operand required differentiation), is_leaf does
not return a boolean but fails with an AttributeError, because the
implementation unconditionally dereferences `history.last_fn`. -/
theorem C9_is_leaf_crashes_on_none_history :
    ∀ (store : Store) (id : Nat), (store id).history = none →
      is_leaf store id = Except.error AdError.attributeError := by
  intro store id h
  unfold is_leaf
  rw [h]

theorem C9_witness :
    is_leaf emptyStore 0 = Except.error AdError.attributeError :=
  C9_is_leaf_crashes_on_none_history emptyStore 0 rfl

/-- C2 (counterexample): on a node whose history is None, is_leaf does
not return true (it raises), so "is_leaf() returns true iff history is
None" fails at such a node. -/
theorem C2_counterexample :
    ¬ (is_leaf emptyStore 0 = Except.ok true ↔ (emptyStore 0).history = none) := by
  intro h
  exact absurd (h.mpr rfl) (by decide)

/-- C2 (amended): is_leaf returns true iff the history is present (the
empty History of a user-tracked leaf) with last_fn None; when the history
itself is None, is_leaf raises instead of returning a boolean. -/
theorem C2_is_leaf_amended :
    ∀ (store : Store) (id : Nat),
      is_leaf store id = Except.ok true ↔
        ∃ h, (store id).history = some h ∧ h.last_fn = none := by
  intro store id
  cases hh : (store id).history with
  | none => simp [is_leaf, hh]
  | some h => simp [is_leaf, hh, Option.isNone_iff_eq_none]

theorem C2_witness :
    is_leaf sq_store0.1 sq_aId = Except.ok true :=
  (C2_is_leaf_amended sq_store0.1 sq_aId).mpr ⟨History.mk none none none, rfl, rfl⟩

/-- C10: requires_grad_ ignores its argument: for every val, including
false, it installs a fresh empty History, the node becomes grad-tracked,
and any subsequent apply consuming it computes need_grad = true. -/
theorem C10_requires_grad_ignores_val :
    ∀ (store : Store) (id : Nat) (val : Bool),
      ((requires_grad_ store id val) id).history = some (History.mk none none none) ∧
      requires_grad_ store id val = requires_grad_ store id false ∧
      ∀ (vals : List Input), Input.var id ∈ vals →
        apply_need_grad (requires_grad_ store id val) vals = true := by
  intro store id val
  refine ⟨by simp [requires_grad_], rfl, ?_⟩
  intro vals hmem
  unfold apply_need_grad
  refine List.any_eq_true.mpr ⟨Input.var id, hmem, ?_⟩
  simp [requires_grad_]

theorem C10_witness :
    ((requires_grad_ emptyStore 1 false) 1).history = some (History.mk none none none) ∧
    apply_need_grad (requires_grad_ emptyStore 1 false) [Input.var 1] = true :=
  ⟨(C10_requires_grad_ignores_val emptyStore 1 false).1,
   (C10_requires_grad_ignores_val emptyStore 1 false).2.2 [Input.var 1] (by simp)⟩

/-- C6: the saved_values accessor fails with the frozen-context error
when no_grad holds, fails with the unsaved-context error when nothing was
saved, and otherwise returns the stored sequence with a singleton
unwrapped to its lone value; save_for_backward is a no-op under no_grad
and otherwise overwrites any prior save. -/
theorem C6_context_contract :
    (∀ ctx : Context, ctx.no_grad = true →
        saved_values ctx = Except.error AdError.gradOnFrozenContext) ∧
    (∀ ctx : Context, ctx.no_grad = false → ctx._saved_values = none →
        saved_values ctx = Except.error AdError.unsavedContext) ∧
    (∀ (ctx : Context) (vs : List ℤ), ctx.no_grad = false → ctx._saved_values = some vs →
        saved_values ctx = Except.ok (unwrap_tuple vs)) ∧
    (∀ v : ℤ, unwrap_tuple [v] = TupOrVal.val v) ∧
    (∀ (ctx : Context) (vs : List ℤ), ctx.no_grad = true →
        save_for_backward ctx vs = ctx) ∧
    (∀ (ctx : Context) (vs : List ℤ), ctx.no_grad = false →
        save_for_backward ctx vs = { ctx with _saved_values := some vs }) := by
  refine ⟨?_, ?_, ?_, ?_, ?_, ?_⟩ <;> intros <;>
    simp_all [saved_values, save_for_backward, unwrap_tuple]

theorem C6_witness :
    saved_values (Context.mk none true) = Except.error AdError.gradOnFrozenContext ∧
    saved_values (Context.mk none false) = Except.error AdError.unsavedContext ∧
    saved_values (Context.mk (some [7]) false) = Except.ok (TupOrVal.val 7) ∧
    save_for_backward (Context.mk none true) [3] = Context.mk none true ∧
    save_for_backward (Context.mk (some [5]) false) [3] = Context.mk (some [3]) false :=
  ⟨C6_context_contract.1 _ rfl,
   C6_context_contract.2.1 _ rfl rfl,
   C6_context_contract.2.2.1 (Context.mk (some [7]) false) [7] rfl rfl,
   C6_context_contract.2.2.2.2.1 _ [3] rfl,
   C6_context_contract.2.2.2.2.2 (Context.mk (some [5]) false) [3] rfl⟩

/-- Helper: when every operand is a constant, apply computes
need_grad = false. -/
theorem apply_need_grad_eq_false_of_all_constant (store : Store) (vals : List Input)
    (h : vals.all (fun v => is_constant store v) = true) :
    apply_need_grad store vals = false := by
  unfold apply_need_grad
  rw [List.any_eq_false]
  intro v hv
  have hc := List.all_eq_true.mp h v hv
  cases v with
  | const c => simp
  | var id =>
    simp only [is_constant] at hc
    simp [Option.isNone_iff_eq_none.mp hc]

/-- Helper: replaying forward's saves onto a frozen context leaves the
context unchanged (save_for_backward is a no-op under no_grad). -/
theorem run_forward_frozen (saves : List (List ℤ)) :
    ∀ ctx : Context, ctx.no_grad = true → run_forward ctx saves = ctx := by
  induction saves with
  | nil => intro ctx _; rfl
  | cons s rest ih =>
    intro ctx h
    unfold run_forward
    rw [List.foldl_cons]
    have hs : save_for_backward ctx s = ctx := by simp [save_for_backward, h]
    rw [hs]
    exact ih ctx h

/-- C4: apply with all-constant operands returns a node whose history is
None and its invocation context's saved_values access fails with the
frozen-context error; in general a History is attached exactly when some
operand required differentiation. -/
theorem C4_apply_constants :
    (∀ (op : Op) (store : Store) (count : Nat) (vals : List Input),
        vals.all (fun v => is_constant store v) = true →
        ((apply op store count vals).1 ((apply op store count vals).2)).history = none ∧
        saved_values (apply_context op store vals) =
          Except.error AdError.gradOnFrozenContext) ∧
    (∀ (op : Op) (store : Store) (count : Nat) (vals : List Input),
        Option.isSome (((apply op store count vals).1 ((apply op store count vals).2)).history)
          = apply_need_grad store vals) := by
  constructor
  · intro op store count vals h
    have hng := apply_need_grad_eq_false_of_all_constant store vals h
    constructor
    · simp [apply, hng]
    · have h2 : apply_context op store vals = Context.mk none true := by
        unfold apply_context
        rw [hng]
        exact run_forward_frozen _ _ rfl
      rw [h2]
      rfl
  · intro op store count vals
    cases hng : apply_need_grad store vals <;> simp [apply, hng]

theorem C4_witness :
    ((apply square emptyStore 1 [Input.const 3]).1
        ((apply square emptyStore 1 [Input.const 3]).2)).history = none ∧
    saved_values (apply_context square emptyStore [Input.const 3]) =
      Except.error AdError.gradOnFrozenContext :=
  C4_apply_constants.1 square emptyStore 1 [Input.const 3] (by decide)

/-- C5: for the grad-tracked leaf a = 2.0 and b = square(a), backward(b)
with seed 1.0 yields a.derivative == 4.0, and a second backward(b) with
seed 1.0 yields a.derivative == 8.0: the accumulator persists and adds
across successive backward calls. -/
theorem C5_square_scenario :
    Except.map (fun s => (s sq_aId).derivative) sq_run1 = Except.ok (some 4) ∧
    Except.map (fun s => (s sq_aId).derivative) sq_run2 = Except.ok (some 8) :=
  ⟨by decide, by decide⟩

/-- C1: the claim requires backward(w) on the diamond y = f(x), z = g(x),
w = h(y, z) to leave x.derivative equal to the SUM of both path
contributions (here 1 along f and 2 along g, so 3), with contributions
ADDED into the pending-derivative map.  The code instead ASSIGNS each
contribution into dict_deriv, overwriting the earlier path, and enqueues
x twice, so it accumulates the last contribution twice: x.derivative
ends at 4, not 1 + 2. -/
theorem C1_diamond_overwrite_bug :
    Except.map (fun s => (s 2).derivative) dia_run = Except.ok (some 4) ∧
    some ((4 : ℤ)) ≠ some ((1 : ℤ) + 2) :=
  ⟨by decide, by decide⟩

/-- Helper: when every non-skipped index stays in range (the gradient
sequence is long enough), the chain_rule loop from index i computes the
spec-side pairing against the gradients from position i on. -/
theorem chain_rule_go_eq_spec (store : Store) (bv : List ℤ) :
    ∀ (inputs : List Input) (i : Nat), inputs.length + i ≤ bv.length →
      chain_rule_go store bv inputs i = Except.ok (chain_rule_spec store inputs (bv.drop i)) := by
  intro inputs
  induction inputs with
  | nil =>
    intro i _
    rfl
  | cons inp rest ih =>
    intro i h
    have hi : i < bv.length := by
      simp only [List.length_cons] at h
      omega
    have hdrop : bv.drop i = bv[i] :: bv.drop (i + 1) := List.drop_eq_getElem_cons hi
    have hbvi : bv[i]? = some bv[i] := List.getElem?_eq_getElem hi
    have hrec := ih (i + 1) (by simp only [List.length_cons] at h; omega)
    rw [hdrop]
    by_cases hc : is_constant store inp = true
    · simp only [chain_rule_go, chain_rule_spec, if_pos hc]
      exact hrec
    · cases inp with
      | const c => exact absurd rfl hc
      | var id =>
        simp only [chain_rule_go, chain_rule_spec, if_neg hc, hbvi, hrec, Except.map]

/-- Helper: with every input non-constant and the gradient sequence too
short, the chain_rule loop fails with IndexError. -/
theorem chain_rule_go_short (store : Store) (bv : List ℤ) :
    ∀ (inputs : List Input) (i : Nat),
      (∀ inp ∈ inputs, is_constant store inp = false) →
      i ≤ bv.length → bv.length < i + inputs.length →
      chain_rule_go store bv inputs i = Except.error AdError.indexError := by
  intro inputs
  induction inputs with
  | nil =>
    intro i _ h1 h2
    simp only [List.length_nil] at h2
    omega
  | cons inp rest ih =>
    intro i hall h1 h2
    have hc := hall inp (List.mem_cons_self inp rest)
    unfold chain_rule_go
    rw [if_neg (by rw [hc]; exact Bool.false_ne_true)]
    cases inp with
    | const c => exact absurd hc (by simp [is_constant])
    | var id =>
      cases hbv : bv[i]? with
      | none => rfl
      | some d =>
        have hi : i < bv.length := (List.getElem?_eq_some.mp hbv).1
        have := ih (i + 1) (fun x hx => hall x (List.mem_cons_of_mem (Input.var id) hx))
          (by omega) (by simp only [List.length_cons] at h2; omega)
        rw [this]
        rfl

/-- C7: chain_rule returns the ordered (operand, contribution) pairs
mirroring inputs with constants removed — dropped iff not a Variable or
history-less (a grad-tracked leaf, history present with last_fn None, is
kept), each contribution being expand of the input's local derivative. -/
theorem C7_chain_rule_pairs :
    ∀ (op : Op) (store : Store) (ctx : Context) (inputs : List Input) (d : ℤ)
      (bv : BackwardResult),
      op.backward ctx d = Except.ok bv →
      (wrap_backward bv).length = inputs.length →
      chain_rule op store ctx inputs d =
        Except.ok (chain_rule_spec store inputs (wrap_backward bv)) := by
  intro op store ctx inputs d bv hb hlen
  unfold chain_rule
  rw [hb]
  have := chain_rule_go_eq_spec store (wrap_backward bv) inputs 0 (by omega)
  simpa using this

theorem C7_witness :
    chain_rule square sq_store0.1 (Context.mk (some [2]) false) [Input.var sq_aId] 1 =
      Except.ok (chain_rule_spec sq_store0.1 [Input.var sq_aId]
        (wrap_backward (BackwardResult.seq [4]))) :=
  C7_chain_rule_pairs square sq_store0.1 (Context.mk (some [2]) false) [Input.var sq_aId] 1
    (BackwardResult.seq [4]) (by decide) (by decide)

/-- C3 (counterexample): the claim requires a failure whenever the
returned gradient count differs from the recorded input count; here
backward returns two gradients for one input — the counts differ — yet
chain_rule succeeds, silently ignoring the extra gradient. -/
theorem C3_counterexample :
    twoGradOp.backward (Context.mk none false) 1 = Except.ok (BackwardResult.seq [1, 1]) ∧
    (wrap_backward (BackwardResult.seq [1, 1])).length = 2 ∧
    ([Input.var sq_aId] : List Input).length = 1 ∧
    chain_rule twoGradOp sq_store0.1 (Context.mk none false) [Input.var sq_aId] 1 =
      Except.ok [(sq_aId, 1)] :=
  ⟨rfl, rfl, rfl, by decide⟩

/-- C3 (amended): chain_rule performs no explicit arity validation.
When backward returns at least as many gradients as there are inputs the
call succeeds, any extras being silently ignored (the result only
depends on the first inputs.length gradients); when it returns fewer
and the inputs are non-constant, the failure is the out-of-range access
IndexError, not an ArityMismatch-kind check. -/
theorem C3_chain_rule_arity_amended :
    (∀ (op : Op) (store : Store) (ctx : Context) (inputs : List Input) (d : ℤ)
        (bv : BackwardResult),
        op.backward ctx d = Except.ok bv →
        inputs.length ≤ (wrap_backward bv).length →
        chain_rule op store ctx inputs d =
          Except.ok (chain_rule_spec store inputs (wrap_backward bv))) ∧
    (∀ (store : Store) (inputs : List Input) (gs : List ℤ),
        chain_rule_spec store inputs gs =
          chain_rule_spec store inputs (gs.take inputs.length)) ∧
    (∀ (op : Op) (store : Store) (ctx : Context) (inputs : List Input) (d : ℤ)
        (bv : BackwardResult),
        op.backward ctx d = Except.ok bv →
        (wrap_backward bv).length < inputs.length →
        (∀ inp ∈ inputs, is_constant store inp = false) →
        chain_rule op store ctx inputs d = Except.error AdError.indexError) := by
  refine ⟨?_, ?_, ?_⟩
  · intro op store ctx inputs d bv hb hlen
    unfold chain_rule
    rw [hb]
    have := chain_rule_go_eq_spec store (wrap_backward bv) inputs 0 (by omega)
    simpa using this
  · intro store inputs
    induction inputs with
    | nil => intro gs; rfl
    | cons inp rest ih =>
      intro gs
      cases gs with
      | nil => rfl
      | cons g gs2 =>
        simp only [List.length_cons, List.take_succ_cons]
        unfold chain_rule_spec
        rw [ih gs2]
  · intro op store ctx inputs d bv hb hlen hall
    unfold chain_rule
    rw [hb]
    exact chain_rule_go_short store (wrap_backward bv) inputs 0 hall (by omega) (by omega)

theorem C3_witness :
    chain_rule twoGradOp sq_store0.1 (Context.mk none false) [Input.var sq_aId] 1 =
      Except.ok (chain_rule_spec sq_store0.1 [Input.var sq_aId]
        (wrap_backward (BackwardResult.seq [1, 1]))) ∧
    chain_rule noGradOp sq_store0.1 (Context.mk none false) [Input.var sq_aId] 1 =
      Except.error AdError.indexError :=
  ⟨C3_chain_rule_arity_amended.1 twoGradOp sq_store0.1 (Context.mk none false)
      [Input.var sq_aId] 1 (BackwardResult.seq [1, 1]) (by decide) (by decide),
   C3_chain_rule_arity_amended.2.2 noGradOp sq_store0.1 (Context.mk none false)
      [Input.var sq_aId] 1 (BackwardResult.seq []) (by decide) (by decide) (by decide)⟩

/-- Helper: every pair the chain_rule loop emits refers to a
non-constant operand (constants are filtered before emission). -/
theorem chain_rule_go_nonconstant (store : Store) (bv : List ℤ) :
    ∀ (inputs : List Input) (i : Nat) (pairs : List (Nat × ℤ)),
      chain_rule_go store bv inputs i = Except.ok pairs →
      ∀ p ∈ pairs, is_constant store (Input.var p.1) = false := by
  intro inputs
  induction inputs with
  | nil =>
    intro i pairs h p hp
    cases h
    simp at hp
  | cons inp rest ih =>
    intro i pairs h p hp
    unfold chain_rule_go at h
    by_cases hc : is_constant store inp = true
    · rw [if_pos hc] at h
      exact ih _ _ h p hp
    · rw [if_neg hc] at h
      cases inp with
      | const c => exact absurd rfl hc
      | var id =>
        cases hbv : bv[i]? with
        | none =>
          rw [hbv] at h
          cases h
        | some d =>
          rw [hbv] at h
          cases hrec : chain_rule_go store bv rest (i + 1) with
          | error e =>
            rw [hrec] at h
            cases h
          | ok ps =>
            rw [hrec] at h
            simp only [Except.map] at h
            cases h
            rcases List.mem_cons.mp hp with h1 | h2
            · rw [h1]
              simpa using hc
            · exact ih _ _ hrec p h2

/-- Helper: accumulate_derivative leaves every other heap entry alone. -/
theorem accumulate_derivative_other (store : Store) (id n : Nat) (d : ℤ) (h : n ≠ id) :
    accumulate_derivative store id d n = store n := by
  simp [accumulate_derivative, h]

/-- Helper: a run of the backpropagation loop that terminates normally
never changes the heap entry of a node whose history is None (such a
node would crash is_leaf if dequeued, and accumulation only targets the
dequeued node). -/
theorem backprop_loop_preserves_constants :
    ∀ (fuel : Nat) (store : Store) (queue : List Nat) (dd : Nat → Option ℤ) (store2 : Store),
      backprop_loop store queue dd fuel = Except.ok store2 →
      ∀ id, (store id).history = none → store2 id = store id := by
  intro fuel
  induction fuel with
  | zero =>
    intro store queue dd store2 h
    cases h
  | succ fuel ih =>
    intro store queue dd store2 h id hid
    cases queue with
    | nil =>
      cases h
      rfl
    | cons qid rest =>
      simp only [backprop_loop] at h
      cases hh : (store qid).history with
      | none =>
        rw [hh] at h
        cases h
      | some hist =>
        rw [hh] at h
        cases hdd : dd qid with
        | none =>
          rw [hdd] at h
          cases h
        | some d =>
          rw [hdd] at h
          dsimp only at h
          cases hlf : hist.last_fn with
          | none =>
            rw [hlf] at h
            have hne : id ≠ qid := by
              intro he
              rw [he, hh] at hid
              cases hid
            have hpres := accumulate_derivative_other store qid id d hne
            have hid2 : ((accumulate_derivative store qid d) id).history = none := by
              rw [hpres]
              exact hid
            have := ih _ _ _ _ h id hid2
            rw [this, hpres]
          | some op =>
            rw [hlf] at h
            cases hctx : hist.ctx with
            | none =>
              rw [hctx] at h
              cases h
            | some ctx =>
              rw [hctx] at h
              cases hinp : hist.inputs with
              | none =>
                rw [hinp] at h
                cases h
              | some inputs =>
                rw [hinp] at h
                dsimp only at h
                cases hcr : chain_rule op store ctx inputs d with
                | error e =>
                  rw [hcr] at h
                  cases h
                | ok pairs =>
                  rw [hcr] at h
                  exact ih _ _ _ _ h id hid

/-- C8: during any backward traversal, a constant operand never enters
the worklist and never receives a derivative accumulation: every pair
chain_rule emits (the only source of worklist additions beyond the root)
refers to a non-constant operand, and a normally terminating
backpropagate leaves the heap entry of every history-less node — its
derivative included — untouched. -/
theorem C8_constants_untouched :
    (∀ (op : Op) (store : Store) (ctx : Context) (inputs : List Input) (d : ℤ)
        (pairs : List (Nat × ℤ)),
        chain_rule op store ctx inputs d = Except.ok pairs →
        ∀ p ∈ pairs, is_constant store (Input.var p.1) = false) ∧
    (∀ (store : Store) (rootId : Nat) (deriv : ℤ) (fuel : Nat) (store2 : Store),
        backpropagate store rootId deriv fuel = Except.ok store2 →
        ∀ id, (store id).history = none → store2 id = store id) := by
  constructor
  · intro op store ctx inputs d pairs h
    unfold chain_rule at h
    cases hb : op.backward ctx d with
    | error e =>
      rw [hb] at h
      cases h
    | ok bv =>
      rw [hb] at h
      exact chain_rule_go_nonconstant store (wrap_backward bv) inputs 0 pairs h
  · intro store rootId deriv fuel store2 h
    exact backprop_loop_preserves_constants fuel store [rootId] _ store2 h

theorem C8_witness :
    Except.map (fun s => s 99) dia_run = Except.ok (dia_storeW.1 99) := by
  cases h : dia_run with
  | error e =>
    have h1 : Except.map (fun s => (s 2).derivative) dia_run = Except.ok (some 4) := by decide
    rw [h] at h1
    cases h1
  | ok s =>
    have h2 := C8_constants_untouched.2 dia_storeW.1 5 1 20 s h 99 rfl
    simp only [Except.map]
    rw [h2]

end Autodiff
